import Mathlib

/-!
Verification development for the routing-table core of a Kademlia-style DHT
(source file `dht/hashtable.go`).  Go byte slices are modelled as `List Nat`
(each entry a byte value), machine integers as `Nat`/`Int`, and the fallible
constructor as `Except`.  The mutex is not modelled: every operation runs
under the table-wide lock in the source, so each operation is embedded as a
pure function from table state to table state.  The `shortList` type, the
`node`/`NetworkNode` records and `AppendUnique` live in repository files that
are not part of the provided source; they are modelled from the spec where
indicated.
-/

/-- The degree of parallelism in network calls (source constant `alpha`). -/
def alpha : Nat := 3

/-- The size in bits of node identifiers (source constant `b`). -/
def b : Nat := 160

/-- The maximum number of contacts stored in a bucket (source constant `k`). -/
def k : Nat := 20

/-- Embedding of `hasBit(n byte, pos uint) bool`: the Go code rewrites
`pos = 7 - pos`, masks with `1 << pos` and tests `val > 0`. -/
def hasBit (n : Nat) (pos : Nat) : Bool :=
  decide (0 < n &&& (1 <<< (7 - pos)))

/-- Embedding of the loop body of `getBucketIndexFromDifferingBit`: walk the
two identifiers byte by byte (counter `j`), xor the bytes, and scan the bits
of the xored byte from index 0 to 7 with `hasBit`; on the first hit return
`b - (j*8 + i) - 1` (Go `int` arithmetic, hence `Int` here). -/
def getBucketIndexFromDifferingBitAux : List Nat → List Nat → Nat → Int
  | x :: xs, y :: ys, j =>
    let xor := x ^^^ y
    match (List.range 8).find? (fun i => hasBit xor i) with
    | some i => (b : Int) - (j * 8 + i) - 1
    | none => getBucketIndexFromDifferingBitAux xs ys (j + 1)
  | _, _, _ => 0

/-- Embedding of `getBucketIndexFromDifferingBit(id1, id2 []byte) int`.
If no differing bit is found the ids are the same and the source returns 0. -/
def getBucketIndexFromDifferingBit (id1 id2 : List Nat) : Int :=
  getBucketIndexFromDifferingBitAux id1 id2 0

/-- Modelled from the spec: `NetworkNode` (declared in a repository file not
under the provided source) is a network-reachable endpoint: Identifier, IP
address, port. -/
structure NetworkNode where
  ID : List Nat
  IP : String
  Port : Int
deriving DecidableEq, Repr

/-- Modelled from the spec: `node` (declared in a repository file not under
the provided source) is a contact known to the routing table, a fixed-shape
record of Identifier, IP and port. -/
structure node where
  ID : List Nat
  IP : String
  Port : Int
deriving DecidableEq, Repr

/-- Modelled from the spec: the `Options` configuration record consumed by
`newHashTable`: optional fixed Identifier, required IP string, required
numeric port string. -/
structure Options where
  ID : Option (List Nat)
  IP : String
  Port : String
deriving DecidableEq, Repr

/-- Embedding of the `hashTable` struct: the local node and the routing
table, a list of `b` buckets of contacts.  The mutex field is omitted. -/
structure hashTable where
  Self : NetworkNode
  RoutingTable : List (List node)
deriving DecidableEq, Repr

/-- Model of Go's `strconv.Atoi`: optional sign followed by a non-empty run
of decimal digits; anything else is an error (`none`).  (The range check of
the real `Atoi` is irrelevant for the claims and is not modelled.) -/
def atoi (s : String) : Option Int :=
  let parseDigits : List Char → Int → Option Int := fun ds sgn =>
    if ds = [] then none
    else if ds.all (fun c => c.isDigit) then
      some (sgn * (ds.foldl (fun acc c => acc * 10 + (c.toNat - 48)) 0 : Nat))
    else none
  match s.toList with
  | '-' :: rest => parseDigits rest (-1)
  | '+' :: rest => parseDigits rest 1
  | cs => parseDigits cs 1

/-- Embedding of `newHashTable(options *Options) (*hashTable, error)`.
The random identifier drawn by `newID` when `options.ID` is absent is passed
in as `randId` (the source aborts the whole start-up if the secure random
source fails, so only the successful draw is modelled).  The source checks
IP/Port emptiness, parses the port with `Atoi`, and appends `b` empty
buckets. -/
def newHashTable (options : Options) (randId : List Nat) : Except String hashTable :=
  let selfId := match options.ID with
    | some i => i
    | none => randId
  if options.IP = "" ∨ options.Port = "" then
    Except.error "Port and IP required"
  else
    match atoi options.Port with
    | none => Except.error "invalid port"
    | some port =>
      Except.ok
        { Self := { ID := selfId, IP := options.IP, Port := port }
          RoutingTable := List.replicate b [] }

/-- Embedding of `addNode(node *node)`: compute the bucket index from the
differing bit between Self's ID and the node's ID, return unchanged if a
contact with the same ID is already in that bucket, otherwise append and, if
the bucket now holds more than `k` items, remove the last one. -/
def addNode (ht : hashTable) (nd : node) : hashTable :=
  let index := (getBucketIndexFromDifferingBit ht.Self.ID nd.ID).toNat
  let bucket := ht.RoutingTable.getD index []
  if bucket.any (fun v => v.ID == nd.ID) then ht
  else
    let bucket2 := bucket ++ [nd]
    let bucket3 := if k < bucket2.length then bucket2.dropLast else bucket2
    { ht with RoutingTable := ht.RoutingTable.set index bucket3 }

/-- A sequence of `addNode` calls applied in order. -/
def applyAddNodes (ht : hashTable) (nds : List node) : hashTable :=
  nds.foldl addNode ht

/-- The table produced by a successful `newHashTable`: the given self node
and `b` empty buckets. -/
def freshTable (selfN : NetworkNode) : hashTable :=
  { Self := selfN, RoutingTable := List.replicate b [] }

/-- Whether some bucket of the table holds a contact with identifier `x`. -/
def tableHasId (ht : hashTable) (x : List Nat) : Bool :=
  ht.RoutingTable.any (fun bkt => bkt.any (fun c => c.ID == x))

/-- Whether every bucket of the table holds at most `cap` contacts. -/
def bucketsWithinCap (ht : hashTable) (cap : Nat) : Bool :=
  ht.RoutingTable.all (fun bkt => decide (bkt.length ≤ cap))

/-- Whether a construction attempt returned an error. -/
def isError (r : Except String hashTable) : Bool :=
  match r with
  | Except.error _ => true
  | Except.ok _ => false

/-- Modelled from the spec: `shortList.AppendUnique` (declared in a
repository file not under the provided source) adds each given contact to the
shortlist only if no existing entry shares its Identifier, preserving
insertion order otherwise.  The shortlist itself is modelled as `List node`. -/
def appendUnique (sl : List node) (cs : List node) : List node :=
  cs.foldl (fun acc c => if acc.any (fun x => x.ID == c.ID) then acc else acc ++ [c]) sl

/-- Byte-wise xor of two identifiers. -/
def xorBytes (a c : List Nat) : List Nat :=
  List.zipWith (fun x y => x ^^^ y) a c

/-- Big-endian numeric value of a byte string. -/
def bytesToNat (xs : List Nat) : Nat :=
  xs.foldl (fun acc v => acc * 256 + v) 0

/-- Modelled from the spec: the XOR distance between two identifiers, the
comparison key of the shortlist sort (byte-wise xor read as a big-endian
number, so comparing distances is the lexicographic comparison of the xored
byte strings used by the shortlist's `Less`). -/
def xorDist (a c : List Nat) : Nat :=
  bytesToNat (xorBytes a c)

/-- Modelled from the spec: the shortlist sort order — ascending XOR distance
from the query target. -/
def distLe (target : List Nat) (a c : node) : Prop :=
  xorDist target a.ID ≤ xorDist target c.ID

instance (target : List Nat) : DecidableRel (distLe target) :=
  fun a c => Nat.decLe (xorDist target a.ID) (xorDist target c.ID)

instance (target : List Nat) : IsTotal node (distLe target) :=
  ⟨fun a c => Nat.le_total (xorDist target a.ID) (xorDist target c.ID)⟩

instance (target : List Nat) : IsTrans node (distLe target) :=
  ⟨fun _ _ _ h1 h2 => Nat.le_trans h1 h2⟩

/-- Embedding of the index-list construction loop of `getClosestContacts`
(lines 101-113): start from `[index]`, keep counters `i = index - 1` and
`j = index + 1`, and while the list has fewer than `b` entries append `j`
when `j < b`, then append `i` when `i >= 0`, then move both outward.  The Go
loop is bounded only by the length test; `b` iterations always suffice (the
probe theorem below proves the resulting list covers all `b` indices), so the
recursion is driven by a fuel argument of `b`. -/
def buildIndexListAux : Nat → Int → Nat → List Nat → List Nat
  | 0, _, _, acc => acc
  | fuel + 1, i, j, acc =>
    if acc.length < b then
      let acc1 := if j < b then acc ++ [j] else acc
      let acc2 := if 0 ≤ i then acc1 ++ [i.toNat] else acc1
      buildIndexListAux fuel (i - 1) (j + 1) acc2
    else acc

/-- The full probe sequence of bucket indices built by `getClosestContacts`
for home index `index`. -/
def buildIndexList (index : Nat) : List Nat :=
  buildIndexListAux b ((index : Int) - 1) (index + 1) [index]

/-- Embedding of the inner contact loop of `getClosestContacts` (lines
123-137) over one bucket: for each contact the code walks `ignoredNodes` and
sets `ignored` whenever `bytes.Compare(ignoredNodes[j].ID, ignoredNodes[j].ID)`
is zero (note: the source compares the ignored entry's ID with itself, not
with the candidate); non-ignored contacts are appended via `AppendUnique`,
`leftToAdd` is decremented, and the loop breaks when it reaches zero. -/
def collectBucket (ignoredNodes : List NetworkNode) : List node → Nat → List node → List node × Nat
  | [], left, sl => (sl, left)
  | c :: cs, left, sl =>
    let ignored := ignoredNodes.any (fun jn => jn.ID == jn.ID)
    if ignored then collectBucket ignoredNodes cs left sl
    else
      let sl2 := appendUnique sl [c]
      let left2 := left - 1
      if left2 = 0 then (sl2, 0)
      else collectBucket ignoredNodes cs left2 sl2

/-- Embedding of the outer selection loop of `getClosestContacts` (lines
120-138): while `leftToAdd > 0` and index list non-empty, pop the next bucket
index and scan that bucket. -/
def collectLoop (rt : List (List node)) (ignoredNodes : List NetworkNode) :
    List Nat → Nat → List node → List node
  | [], _, sl => sl
  | idx :: rest, left, sl =>
    if left = 0 then sl
    else
      let res := collectBucket ignoredNodes (rt.getD idx []) left sl
      collectLoop rt ignoredNodes rest res.2 res.1

/-- Embedding of `getClosestContacts(num int, target []byte, ignoredNodes
[]*NetworkNode) *shortList`: build the probe sequence from the home index of
`target` relative to Self, collect up to `num` contacts along it, and sort
the shortlist (sort modelled from the spec: ascending XOR distance to
`target`, stable). -/
def getClosestContacts (ht : hashTable) (num : Nat) (target : List Nat)
    (ignoredNodes : List NetworkNode) : List node :=
  let index := (getBucketIndexFromDifferingBit ht.Self.ID target).toNat
  let indexList := buildIndexList index
  let sl := collectLoop ht.RoutingTable ignoredNodes indexList num []
  List.insertionSort (distLe target) sl

/-! ## Specification-side definitions -/

/-- The bit of a byte string at zero-based position `p`, where position 0 is
the most significant bit of byte 0 and positions scan toward the least
significant bit of the last byte (the counting convention of the spec). -/
def specBitAt (xs : List Nat) (p : Nat) : Bool :=
  Nat.testBit (xs.getD (p / 8) 0) (7 - p % 8)

/-- `p` is the position of the first set bit of the byte string `xs`, in the
spec's counting convention. -/
def IsFirstSetPos (xs : List Nat) (p : Nat) : Prop :=
  specBitAt xs p = true ∧ ∀ q, q < p → specBitAt xs q = false

/-- One step of the spec's probe sequence: at distance `d` from the home
index, first `home + d` (omitted when out of range above), then `home - d`
(omitted when out of range below). -/
def probeStep (home : Nat) (d : Nat) : List Nat :=
  (if home + d < b then [home + d] else []) ++ (if d ≤ home then [home - d] else [])

/-- The spec's probe sequence truncated after distance `t`. -/
def specPartial (home : Nat) (t : Nat) : List Nat :=
  home :: (List.range' 1 t).flatMap (probeStep home)

/-- The probe sequence described by the spec: the home index followed by
`home+1, home-1, home+2, home-2, …`, indices outside `[0, b)` omitted. -/
def specProbe (home : Nat) : List Nat :=
  specPartial home (b - 1)

/-- Boolean containment of one contact list in another. -/
def subsetB (l1 l2 : List node) : Bool :=
  l1.all (fun c => l2.any (fun x => x == c))

/-! ## Distance metric: bit-level lemmas -/

theorem hasBit_eq_testBit (n i : Nat) : hasBit n i = n.testBit (7 - i) := by
  unfold hasBit
  rw [Nat.shiftLeft_eq, one_mul, Nat.and_two_pow]
  cases h : n.testBit (7 - i) <;> simp [h, Nat.pos_pow_of_pos, Nat.two_pow_pos]

theorem find?_append_some {f : Nat → Bool} :
    ∀ (l1 l2 : List Nat) (a : Nat), l1.find? f = some a → (l1 ++ l2).find? f = some a := by
  intro l1 l2 a h
  induction l1 with
  | nil => simp [List.find?] at h
  | cons x xs ih =>
    rw [List.cons_append]
    cases hx : f x with
    | true => rw [List.find?_cons_of_pos _ hx] at h ⊢; exact h
    | false =>
      rw [List.find?_cons_of_neg _ (by simp [hx])] at h ⊢
      exact ih h

theorem find?_append_none {f : Nat → Bool} :
    ∀ (l1 l2 : List Nat), l1.find? f = none → (l1 ++ l2).find? f = l2.find? f := by
  intro l1 l2 h
  induction l1 with
  | nil => simp
  | cons x xs ih =>
    rw [List.cons_append]
    cases hx : f x with
    | true => rw [List.find?_cons_of_pos _ hx] at h; exact absurd h (by simp)
    | false =>
      rw [List.find?_cons_of_neg _ (by simp [hx])] at h ⊢
      exact ih h

theorem find?_range_none {f : Nat → Bool} (n : Nat) (h : ∀ q, q < n → f q = false) :
    (List.range n).find? f = none := by
  rw [List.find?_eq_none]
  intro x hx
  simp [h x (List.mem_range.mp hx)]

theorem find?_range_some {f : Nat → Bool} :
    ∀ (n p : Nat), p < n → f p = true → (∀ q, q < p → f q = false) →
      (List.range n).find? f = some p := by
  intro n
  induction n with
  | zero => omega
  | succ m ih =>
    intro p hp hf hmin
    rw [List.range_succ]
    rcases Nat.lt_or_ge p m with hpm | hpm
    · exact find?_append_some _ _ _ (ih p hpm hf hmin)
    · have hpe : p = m := by omega
      subst hpe
      rw [find?_append_none _ _ (find?_range_none p hmin)]
      simp [List.find?, hf]

theorem specBitAt_cons_lt (x : Nat) (xs : List Nat) (p : Nat) (hp : p < 8) :
    specBitAt (x :: xs) p = Nat.testBit x (7 - p) := by
  unfold specBitAt
  rw [Nat.div_eq_of_lt hp, Nat.mod_eq_of_lt hp]
  rfl

theorem specBitAt_cons_add (x : Nat) (xs : List Nat) (p : Nat) :
    specBitAt (x :: xs) (p + 8) = specBitAt xs p := by
  unfold specBitAt
  have h1 : (p + 8) / 8 = p / 8 + 1 := by omega
  have h2 : (p + 8) % 8 = p % 8 := by omega
  rw [h1, h2]
  rfl

theorem specBitAt_nil (p : Nat) : specBitAt [] p = false := by
  unfold specBitAt
  simp

theorem xorBytes_cons (x y : Nat) (xs ys : List Nat) :
    xorBytes (x :: xs) (y :: ys) = (x ^^^ y) :: xorBytes xs ys := rfl

/-- On the first byte whose xor has a set bit among bits 0..7 (MSB-first),
the inner `find?` of the embedding locates exactly the spec's first set
position. -/
theorem aux_eq_of_firstSetPos :
    ∀ (xs ys : List Nat) (j p : Nat), IsFirstSetPos (xorBytes xs ys) p →
      getBucketIndexFromDifferingBitAux xs ys j = (b : Int) - (j * 8 + p) - 1 := by
  intro xs
  induction xs with
  | nil =>
    intro ys j p h
    rcases h with ⟨h1, _⟩
    rw [show xorBytes [] ys = [] from rfl, specBitAt_nil] at h1
    exact absurd h1 (by simp)
  | cons x xs ih =>
    intro ys j p h
    cases ys with
    | nil =>
      rcases h with ⟨h1, _⟩
      rw [show xorBytes (x :: xs) [] = [] from rfl, specBitAt_nil] at h1
      exact absurd h1 (by simp)
    | cons y ys =>
      rw [xorBytes_cons] at h
      rcases h with ⟨h1, hmin⟩
      rcases Nat.lt_or_ge p 8 with hp8 | hp8
      · -- the first set bit is in this byte
        rw [specBitAt_cons_lt _ _ _ hp8] at h1
        have hfind : (List.range 8).find? (fun i => hasBit (x ^^^ y) i) = some p := by
          apply find?_range_some 8 p hp8
          · rw [hasBit_eq_testBit]; exact h1
          · intro q hq
            rw [hasBit_eq_testBit]
            have := hmin q hq
            rw [specBitAt_cons_lt _ _ _ (by omega)] at this
            exact this
        unfold getBucketIndexFromDifferingBitAux
        simp only [hfind]
      · -- this byte is clear; recurse on the tail
        have hfind : (List.range 8).find? (fun i => hasBit (x ^^^ y) i) = none := by
          apply find?_range_none
          intro q hq
          rw [hasBit_eq_testBit]
          have := hmin q (by omega)
          rw [specBitAt_cons_lt _ _ _ hq] at this
          exact this
        unfold getBucketIndexFromDifferingBitAux
        simp only [hfind]
        obtain ⟨p', rfl⟩ : ∃ p', p = p' + 8 := ⟨p - 8, by omega⟩
        have hrec : IsFirstSetPos (xorBytes xs ys) p' := by
          constructor
          · rw [← specBitAt_cons_add (x ^^^ y)]; exact h1
          · intro q hq
            rw [← specBitAt_cons_add (x ^^^ y)]
            exact hmin (q + 8) (by omega)
        rw [ih ys (j + 1) p' hrec]
        push_cast
        ring

/-- When the two identifiers are byte-for-byte equal, every xored byte is
zero and the source's fall-through returns 0. -/
theorem aux_self (xs : List Nat) : ∀ j, getBucketIndexFromDifferingBitAux xs xs j = 0 := by
  induction xs with
  | nil => intro j; rfl
  | cons x xs ih =>
    intro j
    have hfind : (List.range 8).find? (fun i => hasBit (x ^^^ x) i) = none := by
      apply find?_range_none
      intro q _
      rw [hasBit_eq_testBit, Nat.xor_self]
      simp
    unfold getBucketIndexFromDifferingBitAux
    simp only [hfind]
    exact ih (j + 1)

/-! ## Concrete fixtures used by witnesses and counterexamples -/

/-- The all-zero 20-byte identifier. -/
def zeros : List Nat := List.replicate 20 0

/-- A 20-byte identifier with only the very first bit set. -/
def idA : List Nat := 128 :: List.replicate 19 0

/-- A 20-byte identifier with the first two bits set. -/
def idB : List Nat := 192 :: List.replicate 19 0

/-- A 20-byte identifier whose first byte is all ones. -/
def idT : List Nat := 255 :: List.replicate 19 0

/-- A contact with identifier `idA`. -/
def nodeA : node := { ID := idA, IP := "10.0.0.1", Port := 4000 }

/-- A contact with identifier `idB`. -/
def nodeB : node := { ID := idB, IP := "10.0.0.2", Port := 4001 }

/-- A fresh table whose Self identifier is all zeros. -/
def htEx : hashTable := freshTable { ID := zeros, IP := "127.0.0.1", Port := 3000 }

/-- The fresh table after inserting `nodeA` then `nodeB` (both land in
bucket 159). -/
def htAB : hashTable := applyAddNodes htEx [nodeA, nodeB]

/-! ## C6: distance metric -/

/-- C6: for equal-length (20-byte) identifiers that differ in at least one
bit, `getBucketIndexFromDifferingBit` returns `159 - p` where `p` is the
zero-based MSB-first position of the first set bit of the byte-wise XOR, and
for bit-identical identifiers it returns 0 without signaling an error. -/
theorem c6_bucket_index_from_differing_bit (id1 id2 : List Nat)
    (h1 : id1.length = 20) (h2 : id2.length = 20) :
    (∀ p, IsFirstSetPos (xorBytes id1 id2) p →
      getBucketIndexFromDifferingBit id1 id2 = 159 - (p : Int)) ∧
    (id1 = id2 → getBucketIndexFromDifferingBit id1 id2 = 0) := by
  constructor
  · intro p hp
    unfold getBucketIndexFromDifferingBit
    rw [aux_eq_of_firstSetPos id1 id2 0 p hp]
    simp only [b]
    push_cast
    ring
  · intro h
    subst h
    exact aux_self id1 0

/-- Witness for C6 at concrete inputs: `idA` vs `zeros` first differ at bit
position 0, giving bucket index 159; identical inputs give 0. -/
theorem c6_witness :
    getBucketIndexFromDifferingBit idA zeros = 159 - ((0 : Nat) : Int) ∧
    getBucketIndexFromDifferingBit zeros zeros = 0 :=
  ⟨(c6_bucket_index_from_differing_bit idA zeros rfl rfl).1 0
      ⟨by decide, fun q hq => absurd hq (Nat.not_lt_zero q)⟩,
    (c6_bucket_index_from_differing_bit zeros zeros rfl rfl).2 rfl⟩

/-! ## Bounds on the home bucket index -/

theorem aux_bound (xs : List Nat) :
    ∀ (ys : List Nat) (j : Nat), 8 * (xs.length + j) ≤ 160 →
      0 ≤ getBucketIndexFromDifferingBitAux xs ys j ∧
        getBucketIndexFromDifferingBitAux xs ys j < 160 := by
  induction xs with
  | nil =>
    intro ys j _
    simp [getBucketIndexFromDifferingBitAux]
  | cons x xs ih =>
    intro ys j h
    cases ys with
    | nil => simp [getBucketIndexFromDifferingBitAux]
    | cons y ys =>
      unfold getBucketIndexFromDifferingBitAux
      cases hfind : (List.range 8).find? (fun i => hasBit (x ^^^ y) i) with
      | some i =>
        simp only [hfind]
        have hi : i < 8 := List.mem_range.mp (List.mem_of_find?_eq_some hfind)
        simp only [List.length_cons] at h
        simp only [b]
        omega
      | none =>
        simp only [hfind]
        apply ih
        simp only [List.length_cons] at h
        omega

theorem homeIndex_bound (id1 id2 : List Nat) (h1 : id1.length = 20) :
    (getBucketIndexFromDifferingBit id1 id2).toNat < 160 := by
  have := aux_bound id1 id2 0 (by omega)
  unfold getBucketIndexFromDifferingBit
  omega

/-! ## C7: the probe sequence -/

theorem specPartial_succ (h t : Nat) :
    specPartial h (t + 1) = specPartial h t ++ probeStep h (t + 1) := by
  unfold specPartial
  rw [List.range'_concat, List.flatMap_append]
  simp [Nat.add_comm]

theorem specPartial_length (h t : Nat) :
    (specPartial h t).length = 1 + min t (159 - h) + min t h := by
  induction t with
  | zero => simp [specPartial]
  | succ t ih =>
    rw [specPartial_succ, List.length_append, ih]
    unfold probeStep
    simp only [b, List.length_append]
    split_ifs <;> simp <;> omega

theorem specPartial_mem (h t : Nat) (hh : h < 160) (x : Nat) :
    x ∈ specPartial h t ↔ (x < 160 ∧ h ≤ x + t ∧ x ≤ h + t) := by
  induction t with
  | zero =>
    simp [specPartial]
    omega
  | succ t ih =>
    rw [specPartial_succ, List.mem_append, ih]
    unfold probeStep
    simp only [b, List.mem_append]
    split_ifs <;> simp <;> omega

theorem specPartial_nodup (h t : Nat) (hh : h < 160) : (specPartial h t).Nodup := by
  induction t with
  | zero => simp [specPartial]
  | succ t ih =>
    rw [specPartial_succ, List.nodup_append]
    refine ⟨ih, ?_, ?_⟩
    · unfold probeStep
      simp only [b]
      split_ifs <;> simp <;> omega
    · intro x hx hx2
      rw [specPartial_mem h t hh] at hx
      unfold probeStep at hx2
      simp only [b, List.mem_append] at hx2
      rcases hx2 with hx2 | hx2 <;> split_ifs at hx2 <;> simp at hx2 <;> omega

theorem specPartial_pad (h t : Nat) (h1 : 159 - h ≤ t) (h2 : h ≤ t) :
    ∀ m, specPartial h (t + m) = specPartial h t := by
  intro m
  induction m with
  | zero => rfl
  | succ m ih =>
    rw [show t + (m + 1) = (t + m) + 1 from rfl, specPartial_succ, ih]
    have hempty : probeStep h (t + m + 1) = [] := by
      unfold probeStep
      simp only [b]
      rw [if_neg (by omega), if_neg (by omega)]
      rfl
    rw [hempty, List.append_nil]

theorem buildIndexListAux_inv (h : Nat) (hh : h < 160) :
    ∀ n t, n + t = 159 →
      buildIndexListAux (160 - t) ((h : Int) - 1 - t) (h + 1 + t) (specPartial h t) =
        specPartial h 159 := by
  intro n
  induction n with
  | zero =>
    intro t ht
    have ht' : t = 159 := by omega
    subst ht'
    rw [show (160 : Nat) - 159 = 0 + 1 from rfl]
    unfold buildIndexListAux
    rw [if_neg]
    rw [specPartial_length h 159]
    simp only [b]
    omega
  | succ n ih =>
    intro t ht
    rw [show (160 : Nat) - t = (159 - t) + 1 from by omega]
    unfold buildIndexListAux
    by_cases hlen : (specPartial h t).length < b
    · rw [if_pos hlen]
      have hstep :
          (if 0 ≤ (h : Int) - 1 - t then
              (if h + 1 + t < b then specPartial h t ++ [h + 1 + t] else specPartial h t) ++
                [((h : Int) - 1 - t).toNat]
            else if h + 1 + t < b then specPartial h t ++ [h + 1 + t] else specPartial h t) =
          specPartial h (t + 1) := by
        rw [specPartial_succ]
        unfold probeStep
        simp only [b]
        by_cases hj : h + 1 + t < 160
        · rw [if_pos hj, if_pos (show h + (t + 1) < 160 from by omega)]
          by_cases hi : 0 ≤ (h : Int) - 1 - t
          · rw [if_pos hi, if_pos (show t + 1 ≤ h from by omega)]
            rw [show ((h : Int) - 1 - t).toNat = h - (t + 1) from by omega]
            rw [show h + 1 + t = h + (t + 1) from by omega]
            simp [List.append_assoc]
          · rw [if_neg hi, if_neg (show ¬(t + 1 ≤ h) from by omega)]
            rw [show h + 1 + t = h + (t + 1) from by omega]
            simp
        · rw [if_neg hj, if_neg (show ¬(h + (t + 1) < 160) from by omega)]
          by_cases hi : 0 ≤ (h : Int) - 1 - t
          · rw [if_pos hi, if_pos (show t + 1 ≤ h from by omega)]
            rw [show ((h : Int) - 1 - t).toNat = h - (t + 1) from by omega]
            simp
          · rw [if_neg hi, if_neg (show ¬(t + 1 ≤ h) from by omega)]
            simp
      simp only [hstep]
      rw [show (h : Int) - 1 - t - 1 = (h : Int) - 1 - (t + 1) from by push_cast; ring]
      rw [show h + 1 + t + 1 = h + 1 + (t + 1) from by omega]
      rw [show (159 : Nat) - t = 160 - (t + 1) from by omega]
      exact ih (t + 1) (by omega)
    · rw [if_neg hlen]
      rw [specPartial_length h t] at hlen
      simp only [b] at hlen
      have h1 : 159 - h ≤ t := by omega
      have h2 : h ≤ t := by omega
      have hpad := specPartial_pad h t h1 h2 (159 - t)
      rw [show t + (159 - t) = 159 from by omega] at hpad
      exact hpad.symm

theorem buildIndexList_eq_specProbe (h : Nat) (hh : h < 160) :
    buildIndexList h = specProbe h := by
  unfold buildIndexList specProbe
  have hinv := buildIndexListAux_inv h hh 159 0 (by omega)
  rw [show specPartial h 0 = [h] from rfl] at hinv
  rw [show (160 : Nat) - 0 = b from rfl] at hinv
  rw [show (h : Int) - 1 - (0 : Nat) = (h : Int) - 1 from by push_cast; ring] at hinv
  rw [show h + 1 + 0 = h + 1 from rfl] at hinv
  rw [hinv]
  rfl

theorem buildIndexList_perm (h : Nat) (hh : h < 160) :
    List.Perm (buildIndexList h) (List.range 160) := by
  rw [buildIndexList_eq_specProbe h hh]
  rw [show specProbe h = specPartial h 159 from rfl]
  rw [List.perm_ext_iff_of_nodup (specPartial_nodup h 159 hh) (List.nodup_range 160)]
  intro a
  rw [specPartial_mem h 159 hh, List.mem_range]
  omega

/-- C7: for every pair of 20-byte identifiers, the bucket probe sequence
built by `getClosestContacts` from their home index equals the spec's
sequence (home, home+1, home-1, home+2, home-2, …, out-of-range indices
omitted) and enumerates each of the `b` = 160 bucket indices exactly once
(it is a permutation of `range b`). -/
theorem c7_probe_sequence (selfId target : List Nat)
    (h1 : selfId.length = 20) (h2 : target.length = 20) :
    buildIndexList ((getBucketIndexFromDifferingBit selfId target).toNat) =
      specProbe ((getBucketIndexFromDifferingBit selfId target).toNat) ∧
    List.Perm (buildIndexList ((getBucketIndexFromDifferingBit selfId target).toNat))
      (List.range b) := by
  have hb := homeIndex_bound selfId target h1
  exact ⟨buildIndexList_eq_specProbe _ hb, buildIndexList_perm _ hb⟩

/-- Witness for C7: the home index of `idT` relative to an all-zero Self is
159, and its probe list matches the spec sequence and covers all buckets. -/
theorem c7_witness :
    buildIndexList ((getBucketIndexFromDifferingBit zeros idT).toNat) =
      specProbe ((getBucketIndexFromDifferingBit zeros idT).toNat) ∧
    List.Perm (buildIndexList ((getBucketIndexFromDifferingBit zeros idT).toNat))
      (List.range b) :=
  c7_probe_sequence zeros idT rfl rfl

/-! ## Helper lemmas on lists and the table -/

theorem set_getD_self : ∀ (l : List (List node)) (i : Nat), l.set i (l.getD i []) = l := by
  intro l
  induction l with
  | nil => intro i; rfl
  | cons x xs ih =>
    intro i
    cases i with
    | zero => rfl
    | succ i => exact congrArg (x :: ·) (ih i)

theorem newHashTable_ok_routing (opts : Options) (randId : List Nat) (ht : hashTable)
    (hok : newHashTable opts randId = Except.ok ht) :
    ht.RoutingTable = List.replicate b [] := by
  simp only [newHashTable] at hok
  split at hok
  · exact absurd hok (by simp)
  · split at hok
    · exact absurd hok (by simp)
    · simp only [Except.ok.injEq] at hok
      rw [← hok]

theorem addNode_length (ht : hashTable) (nd : node) :
    (addNode ht nd).RoutingTable.length = ht.RoutingTable.length := by
  simp only [addNode]
  split
  · rfl
  · simp [List.length_set]

/-! ## C5: duplicate insertion is a no-op -/

/-- C5: if a contact whose Identifier already occurs in its target bucket is
inserted, `addNode` leaves the entire routing table unchanged — the existing
entry (including its address fields) is retained and the new contact's
address is ignored. -/
theorem c5_duplicate_insert_noop (ht : hashTable) (nd : node)
    (hdup : (ht.RoutingTable.getD
        ((getBucketIndexFromDifferingBit ht.Self.ID nd.ID).toNat) []).any
        (fun v => v.ID == nd.ID) = true) :
    addNode ht nd = ht := by
  simp only [addNode, hdup]
  rfl

/-- Witness for C5: re-inserting `idA` with a different claimed address
leaves the table (including nodeA's original address) unchanged. -/
theorem c5_witness :
    addNode (addNode htEx nodeA) { ID := idA, IP := "9.9.9.9", Port := 7 } =
      addNode htEx nodeA :=
  c5_duplicate_insert_noop (addNode htEx nodeA) { ID := idA, IP := "9.9.9.9", Port := 7 }
    (by decide)

/-! ## C4: full-bucket drop -/

/-- C4: if the target bucket already holds exactly `k` = 20 contacts and the
inserted contact's Identifier differs from all of them, `addNode` leaves the
whole table unchanged (the bucket keeps the same `k` contacts in the same
order and every other bucket is untouched), and the new contact is absent
afterwards whenever it was absent before (by the table-equality conclusion;
an identifier's only possible home is its distance bucket, so absence from
that bucket is absence from the table in any state `addNode` can produce). -/
theorem c4_full_bucket_drop (ht : hashTable) (nd : node)
    (hfull : (ht.RoutingTable.getD
        ((getBucketIndexFromDifferingBit ht.Self.ID nd.ID).toNat) []).length = k)
    (hnew : (ht.RoutingTable.getD
        ((getBucketIndexFromDifferingBit ht.Self.ID nd.ID).toNat) []).any
        (fun v => v.ID == nd.ID) = false) :
    addNode ht nd = ht ∧
    (tableHasId ht nd.ID = false → tableHasId (addNode ht nd) nd.ID = false) := by
  have hmain : addNode ht nd = ht := by
    unfold addNode
    simp only [hnew, Bool.false_eq_true, if_false]
    rw [if_pos (by rw [List.length_append, hfull]; simp [k])]
    rw [List.dropLast_concat, set_getD_self]
  exact ⟨hmain, fun h => by rw [hmain]; exact h⟩

/-- A bucket of `k` = 20 distinct contacts, all mapping to bucket 159 of an
all-zero Self (first byte 128..147, leading bit set). -/
def fullBucket : List node :=
  (List.range 20).map (fun i => { ID := (128 + i) :: List.replicate 19 0, IP := "", Port := 0 })

/-- A table whose bucket 159 is full. -/
def htFull : hashTable :=
  { Self := { ID := zeros, IP := "", Port := 0 },
    RoutingTable := (List.replicate b []).set 159 fullBucket }

/-- A 21st distinct contact mapping to bucket 159. -/
def nodeNew : node := { ID := 148 :: List.replicate 19 0, IP := "", Port := 0 }

/-- Witness for C4: inserting a 21st distinct contact into the full bucket
159 leaves the table unchanged and the contact absent. -/
theorem c4_witness :
    addNode htFull nodeNew = htFull ∧ tableHasId (addNode htFull nodeNew) nodeNew.ID = false :=
  ⟨(c4_full_bucket_drop htFull nodeNew (by decide) (by decide)).1,
    (c4_full_bucket_drop htFull nodeNew (by decide) (by decide)).2 (by decide)⟩

/-! ## C3: bucket capacity -/

theorem addNode_preserves_cap (ht : hashTable) (nd : node)
    (hcap : bucketsWithinCap ht k = true) : bucketsWithinCap (addNode ht nd) k = true := by
  unfold bucketsWithinCap at hcap ⊢
  rw [List.all_eq_true] at hcap ⊢
  intro bkt hbkt
  rw [decide_eq_true_eq]
  have hold : ∀ x ∈ ht.RoutingTable, x.length ≤ k := by
    intro x hx
    have := hcap x hx
    rwa [decide_eq_true_eq] at this
  have hbucket_le :
      (ht.RoutingTable.getD ((getBucketIndexFromDifferingBit ht.Self.ID nd.ID).toNat) []).length ≤ k := by
    rcases Nat.lt_or_ge ((getBucketIndexFromDifferingBit ht.Self.ID nd.ID).toNat)
        ht.RoutingTable.length with hlt | hge
    · rw [List.getD_eq_getElem _ _ hlt]
      exact hold _ (List.getElem_mem hlt)
    · rw [List.getD_eq_default _ _ hge]
      simp [k]
  simp only [addNode] at hbkt
  split at hbkt
  · exact hold bkt hbkt
  · rcases List.mem_or_eq_of_mem_set hbkt with hmem | heq
    · exact hold bkt hmem
    · subst heq
      split
      · rw [List.length_dropLast, List.length_append]
        simp at hbucket_le ⊢
        omega
      · rename_i hnotlt
        rw [List.length_append] at hnotlt ⊢
        omega

theorem applyAddNodes_preserves_cap :
    ∀ (nds : List node) (ht : hashTable), bucketsWithinCap ht k = true →
      bucketsWithinCap (applyAddNodes ht nds) k = true := by
  intro nds
  induction nds with
  | nil => intro ht h; exact h
  | cons nd nds ih =>
    intro ht h
    exact ih (addNode ht nd) (addNode_preserves_cap ht nd h)

/-- C3: starting from a freshly constructed table, after any sequence of
`addNode` calls no bucket holds more than `k` = 20 contacts. -/
theorem c3_bucket_capacity (opts : Options) (randId : List Nat) (ht : hashTable)
    (hok : newHashTable opts randId = Except.ok ht) (nds : List node) :
    bucketsWithinCap (applyAddNodes ht nds) k = true := by
  apply applyAddNodes_preserves_cap
  unfold bucketsWithinCap
  rw [newHashTable_ok_routing opts randId ht hok, List.all_eq_true]
  intro x hx
  rw [List.eq_of_mem_replicate hx]
  rfl

/-- Witness for C3 at a concrete construction and insertion sequence. -/
theorem c3_witness : bucketsWithinCap (applyAddNodes htEx [nodeA, nodeB, nodeA]) k = true :=
  c3_bucket_capacity { ID := some zeros, IP := "127.0.0.1", Port := "3000" } zeros htEx
    (by rfl) [nodeA, nodeB, nodeA]

/-! ## C2: self-exclusion -/

/-- C2 counterexample: calling `addNode` with a contact whose Identifier
equals the table's Self Identifier puts that Identifier into bucket 0 — the
Self Identifier does appear as a contact after this sequence of `addNode`
calls, refuting the claim at this concrete input. -/
theorem c2_counterexample :
    tableHasId (applyAddNodes htEx [{ ID := zeros, IP := "1.1.1.1", Port := 1 }])
      (applyAddNodes htEx [{ ID := zeros, IP := "1.1.1.1", Port := 1 }]).Self.ID = true := by
  decide

theorem addNode_no_new_id (ht : hashTable) (nd : node) (x : List Nat)
    (hx : tableHasId ht x = false) (hnd : nd.ID ≠ x) :
    tableHasId (addNode ht nd) x = false := by
  unfold tableHasId at hx ⊢
  rw [List.any_eq_false] at hx ⊢
  intro bkt hbkt
  rw [Bool.not_eq_true, List.any_eq_false]
  intro c hc
  rw [Bool.not_eq_true]
  have hold : ∀ bkt0 ∈ ht.RoutingTable, ∀ c0 ∈ bkt0, (c0.ID == x) = false := by
    intro bkt0 h0 c0 hc0
    have h1 := hx bkt0 h0
    rw [Bool.not_eq_true, List.any_eq_false] at h1
    have h2 := h1 c0 hc0
    rwa [Bool.not_eq_true] at h2
  have hnd' : (nd.ID == x) = false := by
    simp [hnd]
  simp only [addNode] at hbkt
  split at hbkt
  · exact hold bkt hbkt c hc
  · rcases List.mem_or_eq_of_mem_set hbkt with hmem | heq
    · exact hold bkt hmem c hc
    · subst heq
      have hc2 : c ∈ (ht.RoutingTable.getD
          ((getBucketIndexFromDifferingBit ht.Self.ID nd.ID).toNat) []) ++ [nd] := by
        revert hc
        split
        · intro hc
          exact (List.dropLast_sublist _).subset hc
        · intro hc
          exact hc
      rcases List.mem_append.mp hc2 with hcb | hcn
      · rcases Nat.lt_or_ge ((getBucketIndexFromDifferingBit ht.Self.ID nd.ID).toNat)
            ht.RoutingTable.length with hlt | hge
        · rw [List.getD_eq_getElem _ _ hlt] at hcb
          exact hold _ (List.getElem_mem hlt) c hcb
        · rw [List.getD_eq_default _ _ hge] at hcb
          exact absurd hcb (List.not_mem_nil c)
      · rw [List.mem_singleton.mp hcn]
        exact hnd'

theorem applyAddNodes_no_new_id (x : List Nat) :
    ∀ (nds : List node) (ht : hashTable), tableHasId ht x = false →
      (∀ nd ∈ nds, nd.ID ≠ x) → tableHasId (applyAddNodes ht nds) x = false := by
  intro nds
  induction nds with
  | nil => intro ht h _; exact h
  | cons nd nds ih =>
    intro ht h hall
    exact ih (addNode ht nd)
      (addNode_no_new_id ht nd x h (hall nd (List.mem_cons_self nd nds)))
      (fun n hn => hall n (List.mem_cons_of_mem nd hn))

/-- C2 amended: after any sequence of `addNode` calls whose contacts'
Identifiers all differ from the table's Self Identifier, the Self Identifier
never appears as a contact in any bucket of the routing table (the source
performs no self-check, so the original claim's "including a call whose
contact's Identifier equals Self's" case fails; see the counterexample). -/
theorem c2_amended_self_exclusion (selfN : NetworkNode) (nds : List node)
    (h : ∀ nd ∈ nds, nd.ID ≠ selfN.ID) :
    tableHasId (applyAddNodes (freshTable selfN) nds) selfN.ID = false := by
  apply applyAddNodes_no_new_id selfN.ID nds (freshTable selfN) _ h
  unfold tableHasId freshTable
  rw [List.any_eq_false]
  intro bkt hbkt
  rw [List.eq_of_mem_replicate hbkt]
  simp

/-- Witness for C2 amended: contacts with identifiers distinct from the
all-zero Self never make the Self Identifier appear. -/
theorem c2_amended_witness :
    tableHasId
      (applyAddNodes (freshTable { ID := zeros, IP := "127.0.0.1", Port := 3000 })
        [nodeA, nodeB])
      zeros = false :=
  c2_amended_self_exclusion { ID := zeros, IP := "127.0.0.1", Port := 3000 } [nodeA, nodeB]
    (by decide)

/-! ## C9: construction -/

/-- C9: `newHashTable` returns a recoverable error (and no table) when IP or
Port is the empty string or Port does not parse as an integer; on success the
table has exactly `b` = 160 buckets, all empty; and the bucket count never
changes under the table's only mutating operation, `addNode`. -/
theorem c9_construction (opts : Options) (randId : List Nat) :
    ((opts.IP = "" ∨ opts.Port = "" ∨ atoi opts.Port = none) →
      isError (newHashTable opts randId) = true) ∧
    (∀ ht, newHashTable opts randId = Except.ok ht →
      ht.RoutingTable.length = b ∧ ht.RoutingTable.all (fun bkt => bkt.isEmpty) = true) ∧
    (∀ (ht : hashTable) (nd : node),
      (addNode ht nd).RoutingTable.length = ht.RoutingTable.length) := by
  refine ⟨?_, ?_, fun ht nd => addNode_length ht nd⟩
  · intro h
    simp only [newHashTable]
    by_cases hip : opts.IP = "" ∨ opts.Port = ""
    · rw [if_pos hip]
      rfl
    · rw [if_neg hip]
      have hat : atoi opts.Port = none := by tauto
      rw [hat]
      rfl
  · intro ht hok
    have hrt := newHashTable_ok_routing opts randId ht hok
    constructor
    · rw [hrt]
      exact List.length_replicate b []
    · rw [hrt, List.all_eq_true]
      intro x hx
      rw [List.eq_of_mem_replicate hx]
      rfl

/-- Witness for C9: a missing Port yields an error; the concrete successful
construction (`htEx`) has 160 empty buckets; `addNode` keeps the count. -/
theorem c9_witness :
    isError (newHashTable { ID := some zeros, IP := "127.0.0.1", Port := "" } zeros) = true ∧
    (htEx.RoutingTable.length = b ∧ htEx.RoutingTable.all (fun bkt => bkt.isEmpty) = true) ∧
    (addNode htEx nodeA).RoutingTable.length = htEx.RoutingTable.length :=
  ⟨(c9_construction { ID := some zeros, IP := "127.0.0.1", Port := "" } zeros).1
      (Or.inr (Or.inl rfl)),
    (c9_construction { ID := some zeros, IP := "127.0.0.1", Port := "3000" } zeros).2.1 htEx rfl,
    (c9_construction { ID := some zeros, IP := "127.0.0.1", Port := "3000" } zeros).2.2 htEx nodeA⟩

/-! ## C10: non-empty ignore list empties the result -/

theorem collectBucket_all_ignored (ign : List NetworkNode) (hign : ign ≠ []) :
    ∀ (cs : List node) (left : Nat) (sl : List node),
      collectBucket ign cs left sl = (sl, left) := by
  have hany : ign.any (fun jn => jn.ID == jn.ID) = true := by
    cases ign with
    | nil => exact absurd rfl hign
    | cons a as => simp
  intro cs
  induction cs with
  | nil => intro left sl; rfl
  | cons c cs ih =>
    intro left sl
    simp only [collectBucket, hany, if_true]
    exact ih left sl

theorem collectLoop_all_ignored (rt : List (List node)) (ign : List NetworkNode)
    (hign : ign ≠ []) :
    ∀ (idxs : List Nat) (left : Nat) (sl : List node),
      collectLoop rt ign idxs left sl = sl := by
  intro idxs
  induction idxs with
  | nil => intro left sl; rfl
  | cons idx rest ih =>
    intro left sl
    by_cases hl : left = 0
    · simp [collectLoop, hl]
    · simp only [collectLoop, if_neg hl, collectBucket_all_ignored ign hign]
      exact ih left sl

/-- C10: whenever the ignore list passed to `getClosestContacts` is
non-empty, the returned shortlist is empty, regardless of the table's
contents (the source's filter compares each ignored entry's identifier with
itself, so every candidate is treated as ignored). -/
theorem c10_nonempty_ignore_yields_empty (ht : hashTable) (num : Nat) (target : List Nat)
    (ign : List NetworkNode) (hign : ign ≠ []) :
    getClosestContacts ht num target ign = [] := by
  simp only [getClosestContacts]
  rw [collectLoop_all_ignored ht.RoutingTable ign hign]
  rfl

/-- Witness for C10: a populated table queried with a non-empty ignore list
returns nothing. -/
theorem c10_witness :
    getClosestContacts htAB 3 idT [{ ID := idB, IP := "10.0.0.2", Port := 4001 }] = [] :=
  c10_nonempty_ignore_yields_empty htAB 3 idT [{ ID := idB, IP := "10.0.0.2", Port := 4001 }]
    (by simp)

/-! ## C1: the ignore-list contract fails on the code -/

set_option maxRecDepth 8000 in
/-- C1: evaluation of the code at the failing input.  The table holds
`nodeA` and `nodeB`; the ignore list holds only `idB`'s endpoint, so by the
claimed contract the query should return `[nodeA]` (the closest non-ignored
contact); the code instead returns the empty shortlist, because its filter
marks every candidate ignored whenever the ignore list is non-empty.  With
an empty ignore list the same query returns the contacts, showing they are
present and reachable. -/
theorem c1_ignore_filter_code_eval :
    getClosestContacts htAB 2 idT [{ ID := idB, IP := "10.0.0.2", Port := 4001 }] = [] ∧
    getClosestContacts htAB 2 idT [] = [nodeB, nodeA] ∧
    nodeA.ID ≠ idB := by
  decide

/-! ## C8: sortedness and monotonicity of the query result -/

theorem appendUnique_extends (sl : List node) (c : node) :
    sl <+: appendUnique sl [c] := by
  unfold appendUnique
  simp only [List.foldl_cons, List.foldl_nil]
  split
  · exact List.prefix_rfl
  · exact List.prefix_append sl [c]

theorem collectBucket_extends (ign : List NetworkNode) :
    ∀ (cs : List node) (left : Nat) (sl : List node),
      sl <+: (collectBucket ign cs left sl).1 := by
  intro cs
  induction cs with
  | nil => intro left sl; exact List.prefix_rfl
  | cons c cs ih =>
    intro left sl
    cases hig : ign.any (fun jn => jn.ID == jn.ID) with
    | true =>
      simp only [collectBucket, hig, if_true]
      exact ih left sl
    | false =>
      simp only [collectBucket, hig, Bool.false_eq_true, if_false]
      split
      · exact appendUnique_extends sl c
      · exact (appendUnique_extends sl c).trans (ih (left - 1) (appendUnique sl [c]))

theorem collectLoop_extends (rt : List (List node)) (ign : List NetworkNode) :
    ∀ (idxs : List Nat) (left : Nat) (sl : List node),
      sl <+: collectLoop rt ign idxs left sl := by
  intro idxs
  induction idxs with
  | nil => intro left sl; exact List.prefix_rfl
  | cons idx rest ih =>
    intro left sl
    by_cases hl : left = 0
    · simp [collectLoop, hl]
    · simp only [collectLoop, if_neg hl]
      exact (collectBucket_extends ign _ left sl).trans (ih _ _)

theorem collectLoop_zero (rt : List (List node)) (ign : List NetworkNode)
    (idxs : List Nat) (sl : List node) : collectLoop rt ign idxs 0 sl = sl := by
  cases idxs with
  | nil => rfl
  | cons idx rest => simp [collectLoop]

theorem collectBucket_budget (ign : List NetworkNode) :
    ∀ (cs : List node) (n m : Nat) (sl : List node), 0 < n → n ≤ m →
      (collectBucket ign cs n sl).1 <+: (collectBucket ign cs m sl).1 ∧
      ((collectBucket ign cs n sl).2 = 0 ∨
        ((collectBucket ign cs n sl).1 = (collectBucket ign cs m sl).1 ∧
          (collectBucket ign cs m sl).2 = (collectBucket ign cs n sl).2 + (m - n))) := by
  intro cs
  induction cs with
  | nil =>
    intro n m sl hn hnm
    exact ⟨List.prefix_rfl, Or.inr ⟨rfl, by simp [collectBucket]; omega⟩⟩
  | cons c cs ih =>
    intro n m sl hn hnm
    cases hig : ign.any (fun jn => jn.ID == jn.ID) with
    | true =>
      have e1 : collectBucket ign (c :: cs) n sl = collectBucket ign cs n sl := by
        simp only [collectBucket, hig, if_true]
      have e2 : collectBucket ign (c :: cs) m sl = collectBucket ign cs m sl := by
        simp only [collectBucket, hig, if_true]
      rw [e1, e2]
      exact ih n m sl hn hnm
    | false =>
      by_cases hz : n - 1 = 0
      · have e1 : collectBucket ign (c :: cs) n sl = (appendUnique sl [c], 0) := by
          simp only [collectBucket, hig, Bool.false_eq_true, if_false, hz, if_pos]
        by_cases hz2 : m - 1 = 0
        · have e2 : collectBucket ign (c :: cs) m sl = (appendUnique sl [c], 0) := by
            simp only [collectBucket, hig, Bool.false_eq_true, if_false, hz2, if_pos]
          rw [e1, e2]
          exact ⟨List.prefix_rfl, Or.inl rfl⟩
        · have e2 : collectBucket ign (c :: cs) m sl =
              collectBucket ign cs (m - 1) (appendUnique sl [c]) := by
            simp only [collectBucket, hig, Bool.false_eq_true, if_false, if_neg hz2]
          rw [e1, e2]
          exact ⟨collectBucket_extends ign cs (m - 1) (appendUnique sl [c]), Or.inl rfl⟩
      · have hz2 : ¬(m - 1 = 0) := by omega
        have e1 : collectBucket ign (c :: cs) n sl =
            collectBucket ign cs (n - 1) (appendUnique sl [c]) := by
          simp only [collectBucket, hig, Bool.false_eq_true, if_false, if_neg hz]
        have e2 : collectBucket ign (c :: cs) m sl =
            collectBucket ign cs (m - 1) (appendUnique sl [c]) := by
          simp only [collectBucket, hig, Bool.false_eq_true, if_false, if_neg hz2]
        rw [e1, e2]
        obtain ⟨hpre, hrest⟩ := ih (n - 1) (m - 1) (appendUnique sl [c]) (by omega) (by omega)
        refine ⟨hpre, ?_⟩
        rcases hrest with h0 | ⟨heq, hcnt⟩
        · exact Or.inl h0
        · exact Or.inr ⟨heq, by omega⟩

theorem collectLoop_budget (rt : List (List node)) (ign : List NetworkNode) :
    ∀ (idxs : List Nat) (n m : Nat) (sl : List node), n ≤ m →
      collectLoop rt ign idxs n sl <+: collectLoop rt ign idxs m sl := by
  intro idxs
  induction idxs with
  | nil => intro n m sl _; exact List.prefix_rfl
  | cons idx rest ih =>
    intro n m sl hnm
    by_cases hn0 : n = 0
    · rw [hn0, collectLoop_zero]
      exact collectLoop_extends rt ign (idx :: rest) m sl
    · have hm0 : ¬(m = 0) := by omega
      have e1 : collectLoop rt ign (idx :: rest) n sl =
          collectLoop rt ign rest (collectBucket ign (rt.getD idx []) n sl).2
            (collectBucket ign (rt.getD idx []) n sl).1 := by
        simp only [collectLoop, if_neg hn0]
      have e2 : collectLoop rt ign (idx :: rest) m sl =
          collectLoop rt ign rest (collectBucket ign (rt.getD idx []) m sl).2
            (collectBucket ign (rt.getD idx []) m sl).1 := by
        simp only [collectLoop, if_neg hm0]
      rw [e1, e2]
      obtain ⟨hpre, hrest⟩ :=
        collectBucket_budget ign (rt.getD idx []) n m sl (by omega) hnm
      rcases hrest with h0 | ⟨heq, hcnt⟩
      · rw [h0, collectLoop_zero]
        exact hpre.trans (collectLoop_extends rt ign rest _ _)
      · rw [← heq]
        exact ih _ _ _ (by omega)

/-- C8 amended: for every table state, target, ignore list and count, the
shortlist returned by `getClosestContacts` is sorted by non-decreasing XOR
distance to the target, and the result of a query with `count + 1` is a
superset of the result with `count`.  (The original claim's stronger
"count's result is a prefix of count+1's result" fails: the extra contact
collected under the larger budget may sort strictly closer to the target
than earlier-collected ones; see the counterexample.) -/
theorem c8_sorted_and_superset (ht : hashTable) (num : Nat) (target : List Nat)
    (ign : List NetworkNode) :
    List.Sorted (distLe target) (getClosestContacts ht num target ign) ∧
    subsetB (getClosestContacts ht num target ign)
      (getClosestContacts ht (num + 1) target ign) = true := by
  constructor
  · exact List.sorted_insertionSort (distLe target) _
  · rw [subsetB, List.all_eq_true]
    intro c hc
    rw [List.any_eq_true]
    refine ⟨c, ?_, by simp⟩
    have h1 : c ∈ collectLoop ht.RoutingTable ign
        (buildIndexList ((getBucketIndexFromDifferingBit ht.Self.ID target).toNat)) num [] :=
      (List.perm_insertionSort (distLe target) _).subset hc
    have h2 := (collectLoop_budget ht.RoutingTable ign
        (buildIndexList ((getBucketIndexFromDifferingBit ht.Self.ID target).toNat))
        num (num + 1) [] (by omega)).subset h1
    exact (List.perm_insertionSort (distLe target) _).symm.subset h2

set_option maxRecDepth 8000 in
/-- C8 counterexample: with `nodeA` and `nodeB` both in bucket 159 (storage
order `[nodeA, nodeB]`) and target `idT`, the query with count 1 returns
`[nodeA]` but the query with count 2 returns `[nodeB, nodeA]` after the
distance sort, so the count-1 result is not a prefix of the count-2 result,
refuting the claim's prefix clause at this concrete input. -/
theorem c8_counterexample :
    getClosestContacts htAB 1 idT [] = [nodeA] ∧
    getClosestContacts htAB 2 idT [] = [nodeB, nodeA] ∧
    ([nodeA].isPrefixOf [nodeB, nodeA]) = false := by
  decide
